import Mathlib

/-!
Shallow embedding of the quorum key-value store (leader-follower and
leaderless topologies) from the Go sources, together with proofs of the
specification claims.

Conventions of the embedding:
  * Go `map[string]KVPair` becomes an association list updated in place
    (`storeInsert` / `storeLookup`), which matches the observable behavior
    of the map through `Get`.
  * Go `int` versions become `Int`; quorum sizes `W`, `R` become `Nat`.
  * Network nondeterminism is an oracle: for writes, `net : String → Bool`
    tells whether replication to a given peer URL succeeds; for reads, the
    collected responses are passed as a list (their order models the
    nondeterministic channel-arrival order of the Go goroutines).
  * Each write result carries, besides the status code, version and error
    flag of the Go return value, the trace `contacted` of peer URLs the
    coordinator actually sent a replication request to; this is the
    observable network interaction of the Go loop.
-/

/-- Mirrors Go struct KVPair: a value with its version. -/
structure KVPair where
  value : String
  version : Int
deriving Repr, DecidableEq

/-- Association-list update with Go map semantics: replace the binding if the
key is present, append it otherwise. -/
def storeInsert : List (String × KVPair) → String → KVPair → List (String × KVPair)
  | [], k, p => [(k, p)]
  | (k0, p0) :: rest, k, p =>
      if k0 = k then (k, p) :: rest else (k0, p0) :: storeInsert rest k p

/-- Association-list lookup with Go map semantics. -/
def storeLookup : List (String × KVPair) → String → Option KVPair
  | [], _ => none
  | (k0, p0) :: rest, k => if k0 = k then some p0 else storeLookup rest k

/-- Mirrors Go struct KVStore: the map plus the version counter.  The mutex
is irrelevant in the sequential embedding. -/
structure KVStore where
  store : List (String × KVPair)
  versionCounter : Int
deriving Repr, DecidableEq

/-- Mirrors Go NewKVStore. -/
def NewKVStore : KVStore :=
  { store := [], versionCounter := 0 }

/-- Mirrors Go KVStore.Set: with no explicit version the counter is
incremented and used; with an explicit version that version is stored and
the counter is raised to it when it is higher.  Returns the new store and
the version that was stored. -/
def KVStore.Set (kv : KVStore) (key value : String) (version : Option Int) :
    KVStore × Int :=
  match version with
  | none =>
      let v := kv.versionCounter + 1
      ({ store := storeInsert kv.store key ⟨value, v⟩, versionCounter := v }, v)
  | some v =>
      let counter := if v > kv.versionCounter then v else kv.versionCounter
      ({ store := storeInsert kv.store key ⟨value, v⟩, versionCounter := counter }, v)

/-- Mirrors Go KVStore.Get. -/
def KVStore.Get (kv : KVStore) (key : String) : Option KVPair :=
  storeLookup kv.store key

/-- Result of a coordinator write, mirroring the Go triple
(statusCode, version, error) plus the trace of peer URLs that the
coordinator sent a replication request to. -/
structure WriteRes where
  status : Nat
  version : Int
  err : Bool
  contacted : List String
deriving Repr, DecidableEq

/-- Mirrors Go struct LeaderNode (leader-follower topology). -/
structure LeaderNode where
  kvStore : KVStore
  followerURLs : List String
  w : Nat
  r : Nat

/-- The replication loop of Go LeaderNode.Write: walk the followers in
order; on each success increment the counter and return early once it
reaches w.  Returns the final counter, the trace of followers contacted,
and whether the early return fired. -/
def replicateToFollowers (w : Nat) (net : String → Bool) :
    List String → Nat → Nat × List String × Bool
  | [], succ => (succ, [], false)
  | u :: rest, succ =>
      if net u then
        let s := succ + 1
        if w ≤ s then (s, [u], true)
        else
          let out := replicateToFollowers w net rest s
          (out.1, u :: out.2.1, out.2.2)
      else
        let out := replicateToFollowers w net rest succ
        (out.1, u :: out.2.1, out.2.2)

/-- Mirrors Go LeaderNode.Write: reject empty keys; apply locally (fresh
version); if w equals 1 acknowledge at once with no replication; otherwise
run the replication loop and acknowledge iff w successes were reached. -/
def LeaderNode.Write (ln : LeaderNode) (key value : String)
    (net : String → Bool) : LeaderNode × WriteRes :=
  if key = "" then (ln, ⟨400, 0, true, []⟩)
  else
    let out := ln.kvStore.Set key value none
    let ln2 : LeaderNode := { ln with kvStore := out.1 }
    if ln.w = 1 then (ln2, ⟨201, out.2, false, []⟩)
    else
      let looped := replicateToFollowers ln.w net ln.followerURLs 1
      if ln.w ≤ looped.1 then (ln2, ⟨201, out.2, false, looped.2.1⟩)
      else (ln2, ⟨500, out.2, true, looped.2.1⟩)

/-- Mirrors Go struct LeaderlessNode. -/
structure LeaderlessNode where
  nodeID : String
  kvStore : KVStore
  peerURLs : List String
  w : Nat
  r : Nat

/-- The replication loop of Go LeaderlessNode.Write: every peer is
contacted, in order, with no early exit; each success increments the
counter. -/
def replicateToAllPeers (net : String → Bool) : List String → Nat → Nat
  | [], succ => succ
  | u :: rest, succ =>
      replicateToAllPeers net rest (if net u then succ + 1 else succ)

/-- Mirrors Go LeaderlessNode.Write: reject empty keys; apply locally
(fresh version); replicate to every peer unconditionally; acknowledge iff
the success count reached w.  The contacted trace is always the whole peer
list. -/
def LeaderlessNode.Write (ln : LeaderlessNode) (key value : String)
    (net : String → Bool) : LeaderlessNode × WriteRes :=
  if key = "" then (ln, ⟨400, 0, true, []⟩)
  else
    let out := ln.kvStore.Set key value none
    let ln2 : LeaderlessNode := { ln with kvStore := out.1 }
    let succ := replicateToAllPeers net ln.peerURLs 1
    if ln.w ≤ succ then (ln2, ⟨201, out.2, false, ln.peerURLs⟩)
    else (ln2, ⟨500, out.2, true, ln.peerURLs⟩)

/-- Mirrors Go LeaderlessNode.Replicate: apply the write with the supplied
version and answer 201. -/
def LeaderlessNode.Replicate (ln : LeaderlessNode) (key value : String)
    (version : Int) : LeaderlessNode × Nat :=
  ({ ln with kvStore := (ln.kvStore.Set key value (some version)).1 }, 201)

/-- One response drained from the results channel of the Go leaderless
read path. -/
structure ReadResult where
  pair : KVPair
  found : Bool
deriving Repr, DecidableEq

/-- Result of a coordinator read, mirroring the Go quadruple
(statusCode, value, version, error). -/
structure ReadOutcome where
  status : Nat
  value : String
  version : Int
  err : Bool
deriving Repr, DecidableEq

/-- The collection loop of Go LeaderlessNode.Read: drain responses while
fewer than r found records have been collected; only found responses are
appended and counted. -/
def collectResponses (r : Nat) :
    List ReadResult → List KVPair → Nat → List KVPair × Nat
  | [], acc, nodesRead => (acc, nodesRead)
  | res :: rest, acc, nodesRead =>
      if nodesRead < r then
        if res.found then
          collectResponses r rest (acc ++ [res.pair]) (nodesRead + 1)
        else
          collectResponses r rest acc nodesRead
      else (acc, nodesRead)

/-- The last-write-wins selection loop shared by both Go read paths:
starting from a current best, replace it whenever a later pair has a
strictly greater version. -/
def selectLatest (latest : KVPair) : List KVPair → KVPair
  | [] => latest
  | p :: rest =>
      selectLatest (if p.version > latest.version then p else latest) rest

/-- The r-greater-than-1 branch of Go LeaderlessNode.Read, applied to the
channel contents in arrival order. -/
def llReadQuorum (r : Nat) (responses : List ReadResult) : ReadOutcome :=
  let out := collectResponses r responses [] 0
  if out.2 < r then ⟨500, "", 0, true⟩
  else
    match out.1 with
    | [] => ⟨404, "", 0, true⟩
    | p :: rest =>
        let latest := selectLatest p rest
        ⟨200, latest.value, latest.version, false⟩

/-- Mirrors Go LeaderlessNode.Read: with r equal to 1 read only the local
store; otherwise collect responses (local plus peers, in channel-arrival
order given by the responses argument) and resolve by highest version. -/
def LeaderlessNode.Read (ln : LeaderlessNode) (key : String)
    (responses : List ReadResult) : ReadOutcome :=
  if ln.r = 1 then
    match ln.kvStore.Get key with
    | none => ⟨404, "", 0, true⟩
    | some pair => ⟨200, pair.value, pair.version, false⟩
  else llReadQuorum ln.r responses

/-- The follower loop of Go LeaderNode.Read: walk the followers in order,
stopping once nodesRead reached r; a follower counts toward nodesRead only
when its remote read returns a record. -/
def readFollowersLoop (r : Nat) (peerRead : String → Option KVPair) :
    List String → List KVPair → Nat → List KVPair × Nat
  | [], results, nodesRead => (results, nodesRead)
  | u :: rest, results, nodesRead =>
      if r ≤ nodesRead then (results, nodesRead)
      else
        match peerRead u with
        | some pair =>
            readFollowersLoop r peerRead rest (results ++ [pair]) (nodesRead + 1)
        | none => readFollowersLoop r peerRead rest results nodesRead

/-- The seeding of the results slice in Go LeaderNode.Read: the leader
record when present, nothing otherwise. -/
def leaderLocalSeed (ln : LeaderNode) (key : String) : List KVPair :=
  match ln.kvStore.Get key with
  | some pair => [pair]
  | none => []

/-- Mirrors Go LeaderNode.Read: with r equal to 1 read only the leader
store; otherwise seed the results with the leader record when present,
start nodesRead at 1 (the leader counts whether or not it had the key),
walk the followers, and resolve by highest version.  The Go selection loop
ranges over the whole results slice starting from results[0]. -/
def LeaderNode.Read (ln : LeaderNode) (key : String)
    (peerRead : String → Option KVPair) : ReadOutcome :=
  if ln.r = 1 then
    match ln.kvStore.Get key with
    | none => ⟨404, "", 0, true⟩
    | some pair => ⟨200, pair.value, pair.version, false⟩
  else
    let out := readFollowersLoop ln.r peerRead ln.followerURLs
      (leaderLocalSeed ln key) 1
    if out.2 < ln.r then ⟨500, "", 0, true⟩
    else
      match out.1 with
      | [] => ⟨404, "", 0, true⟩
      | p :: rest =>
          let latest := selectLatest p (p :: rest)
          ⟨200, latest.value, latest.version, false⟩

/-- A store mutation, for stating invariants over arbitrary operation
sequences: a Set call with its optional explicit version.  Get does not
mutate the store. -/
structure StoreOp where
  key : String
  value : String
  version : Option Int

/-- Apply a sequence of Set calls to a store, in order. -/
def applyOps : KVStore → List StoreOp → KVStore
  | kv, [] => kv
  | kv, op :: rest => applyOps (kv.Set op.key op.value op.version).1 rest

/-- The store invariant of the spec: the version counter dominates the
version of every record held. -/
def storeInv (kv : KVStore) : Prop :=
  ∀ k p, kv.Get k = some p → p.version ≤ kv.versionCounter

/-- Package a node view of a key as the channel response the read path of
the leaderless coordinator receives from that node (found records carry
the pair, a missing key is a not-found response). -/
def toReadResult : Option KVPair → ReadResult
  | some p => ⟨p, true⟩
  | none => ⟨⟨"", 0⟩, false⟩

/-- Does a node view hold the key with version at least v? -/
def hasVersionGe (v : Int) : Option KVPair → Bool
  | some p => v ≤ p.version
  | none => false

/-- The per-node views of a key right after a leaderless coordinator wrote
it: the coordinator applied the write locally with the fresh version, and
each peer whose replication call succeeded applied it through its own
KVStore.Set with that explicit version (the Go Replicate handler); peers
whose call failed keep their previous store. -/
def postWriteViews (coordStore : KVStore) (peers : List (String × KVStore))
    (net : String → Bool) (key value : String) : List (Option KVPair) :=
  let v := coordStore.versionCounter + 1
  ((coordStore.Set key value none).1.Get key) ::
    peers.map (fun pk =>
      if net pk.1 then ((pk.2.Set key value (some v)).1.Get key)
      else pk.2.Get key)

/-! ### Store lemmas -/

theorem storeLookup_storeInsert (s : List (String × KVPair)) (k k2 : String)
    (p : KVPair) :
    storeLookup (storeInsert s k p) k2 =
      if k2 = k then some p else storeLookup s k2 := by
  induction s with
  | nil =>
      by_cases h : k2 = k
      · subst h; simp [storeInsert, storeLookup]
      · simp [storeInsert, storeLookup, h,
          show ¬k = k2 from fun hh => h hh.symm]
  | cons hd tl ih =>
      obtain ⟨k0, p0⟩ := hd
      by_cases h0 : k0 = k
      · subst h0
        by_cases h2 : k2 = k0
        · subst h2; simp [storeInsert, storeLookup]
        · simp [storeInsert, storeLookup, h2,
            show ¬k0 = k2 from fun hh => h2 hh.symm]
      · by_cases h2 : k0 = k2
        · subst h2
          simp [storeInsert, storeLookup, h0]
        · simp [storeInsert, storeLookup, h0, h2, ih]

theorem KVStore.Get_Set_self (kv : KVStore) (k val : String)
    (ver : Option Int) :
    (kv.Set k val ver).1.Get k = some ⟨val, (kv.Set k val ver).2⟩ := by
  cases ver <;> simp [KVStore.Set, KVStore.Get, storeLookup_storeInsert]

theorem KVStore.Get_Set_other (kv : KVStore) (k k2 val : String)
    (ver : Option Int) (hne : k2 ≠ k) :
    (kv.Set k val ver).1.Get k2 = kv.Get k2 := by
  cases ver <;> simp [KVStore.Set, KVStore.Get, storeLookup_storeInsert, hne]

theorem KVStore.Set_counter_none (kv : KVStore) (k val : String) :
    (kv.Set k val none).1.versionCounter = kv.versionCounter + 1 := rfl

theorem KVStore.Set_version_none (kv : KVStore) (k val : String) :
    (kv.Set k val none).2 = kv.versionCounter + 1 := rfl

theorem KVStore.Set_counter_some (kv : KVStore) (k val : String) (v : Int) :
    (kv.Set k val (some v)).1.versionCounter = max kv.versionCounter v := by
  simp only [KVStore.Set]
  rcases le_or_lt v kv.versionCounter with h | h
  · simp [not_lt.mpr h, max_eq_left h]
  · simp [h, max_eq_right h.le]

theorem KVStore.Set_version_some (kv : KVStore) (k val : String) (v : Int) :
    (kv.Set k val (some v)).2 = v := rfl

theorem KVStore.Set_counter_le (kv : KVStore) (k val : String)
    (ver : Option Int) :
    kv.versionCounter ≤ (kv.Set k val ver).1.versionCounter := by
  cases ver with
  | none => simp [KVStore.Set_counter_none]
  | some v => simp [KVStore.Set_counter_some]

theorem storeInv_NewKVStore : storeInv NewKVStore := by
  intro k p h
  simp [NewKVStore, KVStore.Get, storeLookup] at h

theorem storeInv_Set (kv : KVStore) (k val : String) (ver : Option Int)
    (hinv : storeInv kv) : storeInv (kv.Set k val ver).1 := by
  intro k2 p2 h2
  by_cases hk : k2 = k
  · subst hk
    rw [KVStore.Get_Set_self] at h2
    cases h2
    cases ver with
    | none => simp [KVStore.Set_version_none, KVStore.Set_counter_none]
    | some v =>
        simp [KVStore.Set_version_some, KVStore.Set_counter_some]
  · rw [KVStore.Get_Set_other kv k k2 val ver hk] at h2
    exact le_trans (hinv k2 p2 h2) (KVStore.Set_counter_le kv k val ver)

theorem storeInv_applyOps (kv : KVStore) (ops : List StoreOp)
    (hinv : storeInv kv) : storeInv (applyOps kv ops) := by
  induction ops generalizing kv with
  | nil => exact hinv
  | cons op rest ih =>
      exact ih _ (storeInv_Set kv op.key op.value op.version hinv)

theorem applyOps_counter_le (kv : KVStore) (ops : List StoreOp) :
    kv.versionCounter ≤ (applyOps kv ops).versionCounter := by
  induction ops generalizing kv with
  | nil => exact le_refl _
  | cons op rest ih =>
      exact le_trans (KVStore.Set_counter_le kv op.key op.value op.version)
        (ih _)

/-! ### Claim C8 -/

/-- C8: for every sequence of store operations started from a fresh store,
the version counter dominates the version of every held record; the
counter is monotonically non-decreasing across any operation sequence; a
Set with an externally supplied version raises the counter to that version
when it is higher and never decreases it, while a coordinator Set
increments it. -/
theorem store_counter_monotone_invariant (ops : List StoreOp) (kv : KVStore)
    (k val : String) (v : Int) :
    storeInv (applyOps NewKVStore ops) ∧
    kv.versionCounter ≤ (applyOps kv ops).versionCounter ∧
    (kv.Set k val (some v)).1.versionCounter = max kv.versionCounter v ∧
    kv.versionCounter ≤ (kv.Set k val (some v)).1.versionCounter ∧
    (kv.Set k val none).1.versionCounter = kv.versionCounter + 1 :=
  ⟨storeInv_applyOps NewKVStore ops storeInv_NewKVStore,
   applyOps_counter_le kv ops,
   KVStore.Set_counter_some kv k val v,
   KVStore.Set_counter_le kv k val (some v),
   KVStore.Set_counter_none kv k val⟩

/-! ### Claim C9 -/

/-- C9 counterexample: KVStore.Set itself performs no key validation: a
Set with the empty key stores a record under the empty key and returns the
supplied version, contradicting the claim that it fails with InvalidKey
and stores nothing. -/
theorem set_empty_key_stores_record :
    (NewKVStore.Set "" "v" (some 5)).1.Get "" = some ⟨"v", 5⟩ ∧
    (NewKVStore.Set "" "v" none).1.Get "" = some ⟨"v", 1⟩ := by decide

/-- C9 amended: the empty-key validation lives in the coordinator write
path, not in the store: Coordinator.Write with an empty key fails with
status 400 leaving the node untouched (both topologies), while KVStore.Set
stores a record under any key, the empty key included, and the replication
apply path (LeaderlessNode.Replicate) therefore also stores empty-key
records unchecked. -/
theorem empty_key_rejected_by_write_not_store (ln : LeaderNode)
    (lnl : LeaderlessNode) (value : String) (net : String → Bool)
    (kv : KVStore) (val : String) (ver : Option Int) (v : Int) :
    ln.Write "" value net = (ln, ⟨400, 0, true, []⟩) ∧
    lnl.Write "" value net = (lnl, ⟨400, 0, true, []⟩) ∧
    (kv.Set "" val ver).1.Get "" = some ⟨val, (kv.Set "" val ver).2⟩ ∧
    (lnl.Replicate "" val v).1.kvStore.Get "" = some ⟨val, v⟩ := by
  refine ⟨by simp [LeaderNode.Write], by simp [LeaderlessNode.Write],
    KVStore.Get_Set_self kv "" val ver, ?_⟩
  have h := KVStore.Get_Set_self lnl.kvStore "" val (some v)
  simpa [LeaderlessNode.Replicate, KVStore.Set_version_some] using h

/-! ### Claim C10 -/

/-- C10: a Set with an explicit version replaces the stored record
unconditionally, even when the supplied version is lower than the version
currently held for that key: the stored per-key version can decrease under
replicated writes, and the incoming version is compared only against the
global counter.  The replication entry point LeaderlessNode.Replicate
behaves identically. -/
theorem replicated_set_overwrites_with_lower_version (lnl : LeaderlessNode)
    (k val2 : String) (p : KVPair) (v2 : Int)
    (hcur : lnl.kvStore.Get k = some p) (hlt : v2 < p.version) :
    (lnl.kvStore.Set k val2 (some v2)).1.Get k = some ⟨val2, v2⟩ ∧
    (lnl.kvStore.Set k val2 (some v2)).1.versionCounter =
      max lnl.kvStore.versionCounter v2 ∧
    (lnl.Replicate k val2 v2).1.kvStore.Get k = some ⟨val2, v2⟩ := by
  have h := KVStore.Get_Set_self lnl.kvStore k val2 (some v2)
  rw [KVStore.Set_version_some] at h
  exact ⟨h, KVStore.Set_counter_some lnl.kvStore k val2 v2,
    by simpa [LeaderlessNode.Replicate] using h⟩

/-- C10 witness: a store holding key k at version 10 accepts a replicated
write with version 3 and afterwards holds version 3. -/
theorem replicated_set_overwrites_with_lower_version_witness :
    ((⟨"n1", ⟨[("k", ⟨"a", 10⟩)], 10⟩, [], 1, 1⟩ :
        LeaderlessNode).kvStore.Set "k" "b" (some 3)).1.Get "k" =
      some ⟨"b", 3⟩ ∧
    ((⟨"n1", ⟨[("k", ⟨"a", 10⟩)], 10⟩, [], 1, 1⟩ :
        LeaderlessNode).kvStore.Set "k" "b" (some 3)).1.versionCounter =
      max (10 : Int) 3 ∧
    ((⟨"n1", ⟨[("k", ⟨"a", 10⟩)], 10⟩, [], 1, 1⟩ :
        LeaderlessNode).Replicate "k" "b" 3).1.kvStore.Get "k" =
      some ⟨"b", 3⟩ :=
  replicated_set_overwrites_with_lower_version
    ⟨"n1", ⟨[("k", ⟨"a", 10⟩)], 10⟩, [], 1, 1⟩ "k" "b" ⟨"a", 10⟩ 3
    (by decide) (by decide)

/-! ### Write-loop lemmas -/

theorem replicateToAllPeers_count (net : String → Bool)
    (urls : List String) : ∀ succ,
    replicateToAllPeers net urls succ = succ + List.countP net urls := by
  induction urls with
  | nil => intro succ; simp [replicateToAllPeers]
  | cons u rest ih =>
      intro succ
      by_cases h : net u = true <;>
        simp [replicateToAllPeers, h, ih, List.countP_cons] <;> omega

theorem replicateToFollowers_front (w : Nat) (net : String → Bool)
    (urls : List String) : ∀ succ, ∃ t,
      (replicateToFollowers w net urls succ).2.1 ++ t = urls := by
  induction urls with
  | nil => intro succ; exact ⟨[], rfl⟩
  | cons u rest ih =>
      intro succ
      by_cases h : net u = true
      · by_cases h2 : w ≤ succ + 1
        · exact ⟨rest, by simp [replicateToFollowers, h, h2]⟩
        · obtain ⟨t, ht⟩ := ih (succ + 1)
          exact ⟨t, by simp [replicateToFollowers, h, h2, ht]⟩
      · obtain ⟨t, ht⟩ := ih succ
        exact ⟨t, by simp [replicateToFollowers, h, ht]⟩

theorem replicateToFollowers_count (w : Nat) (net : String → Bool)
    (urls : List String) : ∀ succ,
    (replicateToFollowers w net urls succ).1 =
      succ + List.countP net (replicateToFollowers w net urls succ).2.1 := by
  induction urls with
  | nil => intro succ; simp [replicateToFollowers]
  | cons u rest ih =>
      intro succ
      by_cases h : net u = true
      · by_cases h2 : w ≤ succ + 1
        · simp [replicateToFollowers, h, h2, List.countP_cons]
        · simp [replicateToFollowers, h, h2, List.countP_cons, ih (succ + 1)]
          omega
      · simp [replicateToFollowers, h, List.countP_cons, ih succ]

theorem replicateToFollowers_early (w : Nat) (net : String → Bool)
    (urls : List String) : ∀ succ, succ < w →
    (replicateToFollowers w net urls succ).2.2 = true →
    (replicateToFollowers w net urls succ).1 = w := by
  induction urls with
  | nil => intro succ _ he; simp [replicateToFollowers] at he
  | cons u rest ih =>
      intro succ hlt he
      by_cases h : net u = true
      · by_cases h2 : w ≤ succ + 1
        · simp [replicateToFollowers, h, h2]; omega
        · simp [replicateToFollowers, h, h2] at he ⊢
          exact ih (succ + 1) (by omega) he
      · simp [replicateToFollowers, h] at he ⊢
        exact ih succ hlt he

theorem replicateToFollowers_noearly (w : Nat) (net : String → Bool)
    (urls : List String) : ∀ succ,
    (replicateToFollowers w net urls succ).2.2 = false →
    (replicateToFollowers w net urls succ).2.1 = urls := by
  induction urls with
  | nil => intro succ _; simp [replicateToFollowers]
  | cons u rest ih =>
      intro succ he
      by_cases h : net u = true
      · by_cases h2 : w ≤ succ + 1
        · simp [replicateToFollowers, h, h2] at he
        · simp [replicateToFollowers, h, h2] at he ⊢
          exact ih (succ + 1) he
      · simp [replicateToFollowers, h] at he ⊢
        exact ih succ he

theorem replicateToFollowers_notmet (w : Nat) (net : String → Bool)
    (urls : List String) : ∀ succ, succ < w →
    (replicateToFollowers w net urls succ).2.2 = false →
    (replicateToFollowers w net urls succ).1 < w := by
  induction urls with
  | nil => intro succ hlt _; simpa [replicateToFollowers] using hlt
  | cons u rest ih =>
      intro succ hlt he
      by_cases h : net u = true
      · by_cases h2 : w ≤ succ + 1
        · simp [replicateToFollowers, h, h2] at he
        · simp [replicateToFollowers, h, h2] at he ⊢
          exact ih (succ + 1) (by omega) he
      · simp [replicateToFollowers, h] at he ⊢
        exact ih succ hlt he

theorem replicateToFollowers_min (w : Nat) (net : String → Bool)
    (urls : List String) : ∀ succ, succ < w →
    ∀ p q, p ++ q = (replicateToFollowers w net urls succ).2.1 → q ≠ [] →
      succ + List.countP net p < w := by
  induction urls with
  | nil =>
      intro succ hlt p q hpq hq
      simp [replicateToFollowers] at hpq
      exact absurd hpq.2 hq
  | cons u rest ih =>
      intro succ hlt p q hpq hq
      by_cases h : net u = true
      · by_cases h2 : w ≤ succ + 1
        · simp [replicateToFollowers, h, h2] at hpq
          cases p with
          | nil => simpa using hlt
          | cons x p2 =>
              simp at hpq
              obtain ⟨-, hrest⟩ := hpq
              exact absurd hrest.2 hq
        · simp [replicateToFollowers, h, h2] at hpq
          cases p with
          | nil => simpa using hlt
          | cons x p2 =>
              simp at hpq
              obtain ⟨hx, hrest⟩ := hpq
              subst hx
              have := ih (succ + 1) (by omega) p2 q hrest hq
              simp [List.countP_cons, h]
              omega
      · simp [replicateToFollowers, h] at hpq
        cases p with
        | nil => simpa using hlt
        | cons x p2 =>
            simp at hpq
            obtain ⟨hx, hrest⟩ := hpq
            subst hx
            have := ih succ hlt p2 q hrest hq
            simp [List.countP_cons, h]
            omega

theorem replicateToFollowers_met_iff (w : Nat) (net : String → Bool)
    (urls : List String) (succ : Nat) (hlt : succ < w) :
    (w ≤ (replicateToFollowers w net urls succ).1 ↔
      w ≤ succ + List.countP net urls) := by
  cases he : (replicateToFollowers w net urls succ).2.2 with
  | true =>
      have h1 := replicateToFollowers_early w net urls succ hlt he
      have h2 := replicateToFollowers_count w net urls succ
      obtain ⟨t, ht⟩ := replicateToFollowers_front w net urls succ
      have h3 : List.countP net urls =
          List.countP net (replicateToFollowers w net urls succ).2.1 +
            List.countP net t := by
        conv_lhs => rw [← ht]
        rw [List.countP_append]
      constructor
      · intro _; omega
      · intro _; omega
  | false =>
      have h1 := replicateToFollowers_noearly w net urls succ he
      have h2 := replicateToFollowers_count w net urls succ
      rw [h1] at h2
      omega

/-! ### Claim C2 -/

/-- C2 counterexample: a leaderless coordinator configured with W = 1 and
one peer still sends a synchronous replication request to that peer before
acknowledging, contradicting the claim that no synchronous replication is
attempted for any W = 1 write. -/
theorem w1_leaderless_write_contacts_peer :
    ((⟨"n1", NewKVStore, ["p1"], 1, 1⟩ : LeaderlessNode).Write "k" "v"
        (fun _ => true)).2.contacted = ["p1"] ∧
    ((⟨"n1", NewKVStore, ["p1"], 1, 1⟩ : LeaderlessNode).Write "k" "v"
        (fun _ => true)).2.status = 201 ∧
    (⟨"n1", NewKVStore, ["p1"], 1, 1⟩ : LeaderlessNode).w = 1 := by
  decide

/-- C2 (amended): W = 1 writes with a non-empty key acknowledge 201 with
the freshly assigned version right after the local apply and contact no
peer in the leader-follower topology; the leaderless coordinator instead
always replicates synchronously to every peer regardless of W before
returning, though with W = 1 it always acknowledges success. -/
theorem w1_write_acks_after_local_apply (ln : LeaderNode)
    (lnl : LeaderlessNode) (key value : String) (net : String → Bool)
    (hk : key ≠ "") (hw : ln.w = 1) (hwl : lnl.w = 1) :
    (ln.Write key value net).2 =
      ⟨201, ln.kvStore.versionCounter + 1, false, []⟩ ∧
    (ln.Write key value net).1.kvStore.Get key =
      some ⟨value, ln.kvStore.versionCounter + 1⟩ ∧
    (lnl.Write key value net).2.status = 201 ∧
    (lnl.Write key value net).2.version = lnl.kvStore.versionCounter + 1 ∧
    (lnl.Write key value net).2.contacted = lnl.peerURLs := by
  have hget := KVStore.Get_Set_self ln.kvStore key value none
  rw [KVStore.Set_version_none] at hget
  have hmet : lnl.w ≤ replicateToAllPeers net lnl.peerURLs 1 := by
    rw [replicateToAllPeers_count, hwl]; omega
  refine ⟨?_, ?_, ?_, ?_, ?_⟩ <;>
    simp [LeaderNode.Write, LeaderlessNode.Write, hk, hw, hmet, hget,
      KVStore.Set_version_none]

/-- C2 witness: instantiation with one follower and one peer, all
reachable. -/
theorem w1_write_acks_after_local_apply_witness :
    ("k" : String) ≠ "" ∧
    ((LeaderNode.Write ⟨NewKVStore, ["f1"], 1, 1⟩ "k" "v"
        (fun _ => true)).2 =
      ⟨201, (⟨NewKVStore, ["f1"], 1, 1⟩ : LeaderNode).kvStore.versionCounter
        + 1, false, []⟩ ∧
    (LeaderNode.Write ⟨NewKVStore, ["f1"], 1, 1⟩ "k" "v"
        (fun _ => true)).1.kvStore.Get "k" =
      some ⟨"v", (⟨NewKVStore, ["f1"], 1, 1⟩ :
        LeaderNode).kvStore.versionCounter + 1⟩ ∧
    ((⟨"n1", NewKVStore, ["p1"], 1, 1⟩ : LeaderlessNode).Write "k" "v"
        (fun _ => true)).2.status = 201 ∧
    ((⟨"n1", NewKVStore, ["p1"], 1, 1⟩ : LeaderlessNode).Write "k" "v"
        (fun _ => true)).2.version =
      (⟨"n1", NewKVStore, ["p1"], 1, 1⟩ :
        LeaderlessNode).kvStore.versionCounter + 1 ∧
    ((⟨"n1", NewKVStore, ["p1"], 1, 1⟩ : LeaderlessNode).Write "k" "v"
        (fun _ => true)).2.contacted =
      (⟨"n1", NewKVStore, ["p1"], 1, 1⟩ : LeaderlessNode).peerURLs) :=
  ⟨by decide,
   w1_write_acks_after_local_apply ⟨NewKVStore, ["f1"], 1, 1⟩
     ⟨"n1", NewKVStore, ["p1"], 1, 1⟩ "k" "v" (fun _ => true)
     (by decide) rfl rfl⟩

/-! ### Claim C3 -/

/-- C3 counterexample: a leaderless coordinator with W = 2 over two
reachable peers reaches the write quorum after the first peer (the counter
is 2 there) yet still contacts the second peer, contradicting the claim
that no further peer is contacted once the counter reaches W. -/
theorem leaderless_write_ignores_early_quorum :
    ((⟨"n1", NewKVStore, ["p1", "p2"], 2, 1⟩ : LeaderlessNode).Write "k"
        "v" (fun _ => true)).2.contacted = ["p1", "p2"] ∧
    1 + List.countP (fun _ => true) ["p1"] = 2 ∧
    (⟨"n1", NewKVStore, ["p1", "p2"], 2, 1⟩ : LeaderlessNode).w = 2 := by
  decide

/-- C3 (amended): for W greater than 1 the leader-follower coordinator
replicates to followers one at a time in their fixed order, counts 1 for
the local apply plus 1 per successful replication, stops exactly when the
counter reaches W (before every contacted peer but the last the counter is
still below W), acknowledges 201 with the locally assigned version exactly
when W total successes are reachable, and on failure has contacted the
whole replica set; the leaderless coordinator instead always contacts
every peer, acknowledging afterwards iff the success count reached W. -/
theorem write_replicates_in_order_until_quorum (ln : LeaderNode)
    (lnl : LeaderlessNode) (key value : String) (net : String → Bool)
    (hk : key ≠ "") (hw : 1 < ln.w) :
    (∃ t, (ln.Write key value net).2.contacted ++ t = ln.followerURLs) ∧
    (∀ p q, p ++ q = (ln.Write key value net).2.contacted → q ≠ [] →
      1 + List.countP net p < ln.w) ∧
    ((ln.Write key value net).2.status = 201 ↔
      ln.w ≤ 1 + List.countP net ln.followerURLs) ∧
    ((ln.Write key value net).2.status = 201 →
      1 + List.countP net (ln.Write key value net).2.contacted = ln.w ∧
      (ln.Write key value net).2.version = ln.kvStore.versionCounter + 1 ∧
      (ln.Write key value net).2.err = false) ∧
    ((ln.Write key value net).2.status ≠ 201 →
      (ln.Write key value net).2.contacted = ln.followerURLs) ∧
    (lnl.Write key value net).2.contacted = lnl.peerURLs ∧
    ((lnl.Write key value net).2.status = 201 ↔
      lnl.w ≤ 1 + List.countP net lnl.peerURLs) := by
  have hne : ¬ln.w = 1 := by omega
  have h1w : (1 : Nat) < ln.w := hw
  have hmetiff := replicateToFollowers_met_iff ln.w net ln.followerURLs 1 h1w
  have hcount := replicateToFollowers_count ln.w net ln.followerURLs 1
  have hfront := replicateToFollowers_front ln.w net ln.followerURLs 1
  by_cases hmet : ln.w ≤ (replicateToFollowers ln.w net ln.followerURLs 1).1
  · have hres : (ln.Write key value net).2 =
        ⟨201, ln.kvStore.versionCounter + 1, false,
          (replicateToFollowers ln.w net ln.followerURLs 1).2.1⟩ := by
      simp [LeaderNode.Write, hk, hne, hmet, KVStore.Set_version_none]
    refine ⟨?_, ?_, ?_, ?_, ?_, ?_, ?_⟩
    · rw [hres]; exact hfront
    · rw [hres]
      exact fun p q hpq hq =>
        replicateToFollowers_min ln.w net ln.followerURLs 1 h1w p q hpq hq
    · rw [hres]; simpa using hmetiff.mp hmet
    · intro _
      rw [hres]
      refine ⟨?_, rfl, rfl⟩
      show 1 + List.countP net
        (replicateToFollowers ln.w net ln.followerURLs 1).2.1 = ln.w
      have heq : (replicateToFollowers ln.w net ln.followerURLs 1).1 = ln.w := by
        cases he : (replicateToFollowers ln.w net ln.followerURLs 1).2.2 with
        | true => exact replicateToFollowers_early ln.w net ln.followerURLs 1 h1w he
        | false =>
            have := replicateToFollowers_notmet ln.w net ln.followerURLs 1 h1w he
            omega
      omega
    · intro hcontra
      rw [hres] at hcontra
      simp at hcontra
    · by_cases hm : lnl.w ≤ replicateToAllPeers net lnl.peerURLs 1 <;>
        simp [LeaderlessNode.Write, hk, hm]
    · have hcll := replicateToAllPeers_count net lnl.peerURLs 1
      by_cases hm : lnl.w ≤ replicateToAllPeers net lnl.peerURLs 1
      · simp [LeaderlessNode.Write, hk, hm]
        omega
      · simp [LeaderlessNode.Write, hk, hm]
        omega
  · have hres : (ln.Write key value net).2 =
        ⟨500, ln.kvStore.versionCounter + 1, true,
          (replicateToFollowers ln.w net ln.followerURLs 1).2.1⟩ := by
      simp [LeaderNode.Write, hk, hne, hmet, KVStore.Set_version_none]
    have hnoe : (replicateToFollowers ln.w net ln.followerURLs 1).2.2 = false := by
      cases he : (replicateToFollowers ln.w net ln.followerURLs 1).2.2 with
      | true =>
          have := replicateToFollowers_early ln.w net ln.followerURLs 1 h1w he
          omega
      | false => rfl
    have hall := replicateToFollowers_noearly ln.w net ln.followerURLs 1 hnoe
    refine ⟨?_, ?_, ?_, ?_, ?_, ?_, ?_⟩
    · rw [hres]; exact hfront
    · rw [hres]
      exact fun p q hpq hq =>
        replicateToFollowers_min ln.w net ln.followerURLs 1 h1w p q hpq hq
    · rw [hres]
      simp only [WriteRes.status]
      constructor
      · intro h; omega
      · intro h; exact absurd (hmetiff.mpr h) hmet
    · intro hcontra
      rw [hres] at hcontra
      simp at hcontra
    · intro _
      rw [hres]
      exact hall
    · by_cases hm : lnl.w ≤ replicateToAllPeers net lnl.peerURLs 1 <;>
        simp [LeaderlessNode.Write, hk, hm]
    · have hcll := replicateToAllPeers_count net lnl.peerURLs 1
      by_cases hm : lnl.w ≤ replicateToAllPeers net lnl.peerURLs 1
      · simp [LeaderlessNode.Write, hk, hm]
        omega
      · simp [LeaderlessNode.Write, hk, hm]
        omega

/-- C3 witness: a leader with W = 2 over three reachable followers stops
after the first follower. -/
theorem write_replicates_in_order_until_quorum_witness :
    ("k" : String) ≠ "" ∧ (1 : Nat) < 2 ∧
    ((∃ t, (LeaderNode.Write ⟨NewKVStore, ["f1", "f2", "f3"], 2, 1⟩ "k" "v"
        (fun _ => true)).2.contacted ++ t = ["f1", "f2", "f3"]) ∧
     (∀ p q, p ++ q = (LeaderNode.Write ⟨NewKVStore, ["f1", "f2", "f3"], 2, 1⟩
        "k" "v" (fun _ => true)).2.contacted → q ≠ [] →
        1 + List.countP (fun _ => true) p < 2) ∧
     ((LeaderNode.Write ⟨NewKVStore, ["f1", "f2", "f3"], 2, 1⟩ "k" "v"
        (fun _ => true)).2.status = 201 ↔
        2 ≤ 1 + List.countP (fun _ => true) ["f1", "f2", "f3"]) ∧
     ((LeaderNode.Write ⟨NewKVStore, ["f1", "f2", "f3"], 2, 1⟩ "k" "v"
        (fun _ => true)).2.status = 201 →
        1 + List.countP (fun _ => true)
          (LeaderNode.Write ⟨NewKVStore, ["f1", "f2", "f3"], 2, 1⟩ "k" "v"
            (fun _ => true)).2.contacted = 2 ∧
        (LeaderNode.Write ⟨NewKVStore, ["f1", "f2", "f3"], 2, 1⟩ "k" "v"
          (fun _ => true)).2.version = 0 + 1 ∧
        (LeaderNode.Write ⟨NewKVStore, ["f1", "f2", "f3"], 2, 1⟩ "k" "v"
          (fun _ => true)).2.err = false) ∧
     ((LeaderNode.Write ⟨NewKVStore, ["f1", "f2", "f3"], 2, 1⟩ "k" "v"
        (fun _ => true)).2.status ≠ 201 →
        (LeaderNode.Write ⟨NewKVStore, ["f1", "f2", "f3"], 2, 1⟩ "k" "v"
          (fun _ => true)).2.contacted = ["f1", "f2", "f3"]) ∧
     ((LeaderlessNode.Write ⟨"n1", NewKVStore, ["p1", "p2"], 2, 1⟩ "k" "v"
        (fun _ => true)).2.contacted = ["p1", "p2"]) ∧
     ((LeaderlessNode.Write ⟨"n1", NewKVStore, ["p1", "p2"], 2, 1⟩ "k" "v"
        (fun _ => true)).2.status = 201 ↔
        2 ≤ 1 + List.countP (fun _ => true) ["p1", "p2"])) :=
  ⟨by decide, by decide,
   write_replicates_in_order_until_quorum
     ⟨NewKVStore, ["f1", "f2", "f3"], 2, 1⟩
     ⟨"n1", NewKVStore, ["p1", "p2"], 2, 1⟩ "k" "v" (fun _ => true)
     (by decide) (by decide)⟩

/-! ### Claim C4 -/

/-- C4: when the replica set is exhausted with fewer than W total
successes (the local apply counting as 1), the write fails with status 500
and the quorum error while still reporting the attempted version, and the
coordinator local store still holds the written record — no rollback.
Proved for both topologies. -/
theorem quorum_failure_keeps_local_write (ln : LeaderNode)
    (lnl : LeaderlessNode) (key value : String) (net : String → Bool)
    (hk : key ≠ "")
    (hlf : 1 + List.countP net ln.followerURLs < ln.w)
    (hll : 1 + List.countP net lnl.peerURLs < lnl.w) :
    (ln.Write key value net).2 =
      ⟨500, ln.kvStore.versionCounter + 1, true, ln.followerURLs⟩ ∧
    (ln.Write key value net).1.kvStore.Get key =
      some ⟨value, ln.kvStore.versionCounter + 1⟩ ∧
    (lnl.Write key value net).2 =
      ⟨500, lnl.kvStore.versionCounter + 1, true, lnl.peerURLs⟩ ∧
    (lnl.Write key value net).1.kvStore.Get key =
      some ⟨value, lnl.kvStore.versionCounter + 1⟩ := by
  have h1w : (1 : Nat) < ln.w := by omega
  have hne : ¬ln.w = 1 := by omega
  have hnmet : ¬ln.w ≤ (replicateToFollowers ln.w net ln.followerURLs 1).1 :=
    fun h =>
      absurd ((replicateToFollowers_met_iff ln.w net ln.followerURLs 1
        h1w).mp h) (by omega)
  have hnoe : (replicateToFollowers ln.w net ln.followerURLs 1).2.2 = false := by
    cases he : (replicateToFollowers ln.w net ln.followerURLs 1).2.2 with
    | true =>
        have := replicateToFollowers_early ln.w net ln.followerURLs 1 h1w he
        omega
    | false => rfl
  have hall := replicateToFollowers_noearly ln.w net ln.followerURLs 1 hnoe
  have hgetlf := KVStore.Get_Set_self ln.kvStore key value none
  rw [KVStore.Set_version_none] at hgetlf
  have hgetll := KVStore.Get_Set_self lnl.kvStore key value none
  rw [KVStore.Set_version_none] at hgetll
  have hm : ¬lnl.w ≤ replicateToAllPeers net lnl.peerURLs 1 := by
    rw [replicateToAllPeers_count]; omega
  refine ⟨?_, ?_, ?_, ?_⟩ <;>
    simp [LeaderNode.Write, LeaderlessNode.Write, hk, hne, hnmet, hm, hall,
      hgetlf, hgetll, KVStore.Set_version_none]

/-- C4 witness: W = 3 with two unreachable peers in each topology: the
write fails 500 with version 1 and the coordinator store still holds the
record at version 1. -/
theorem quorum_failure_keeps_local_write_witness :
    ("k" : String) ≠ "" ∧
    1 + List.countP (fun _ => false) ["f1", "f2"] < 3 ∧
    1 + List.countP (fun _ => false) ["p1", "p2"] < 3 ∧
    ((LeaderNode.Write ⟨NewKVStore, ["f1", "f2"], 3, 1⟩ "k" "v"
        (fun _ => false)).2 = ⟨500, 0 + 1, true, ["f1", "f2"]⟩ ∧
     (LeaderNode.Write ⟨NewKVStore, ["f1", "f2"], 3, 1⟩ "k" "v"
        (fun _ => false)).1.kvStore.Get "k" = some ⟨"v", 0 + 1⟩ ∧
     (LeaderlessNode.Write ⟨"n1", NewKVStore, ["p1", "p2"], 3, 1⟩ "k" "v"
        (fun _ => false)).2 = ⟨500, 0 + 1, true, ["p1", "p2"]⟩ ∧
     (LeaderlessNode.Write ⟨"n1", NewKVStore, ["p1", "p2"], 3, 1⟩ "k" "v"
        (fun _ => false)).1.kvStore.Get "k" = some ⟨"v", 0 + 1⟩) :=
  ⟨by decide, by decide, by decide,
   quorum_failure_keeps_local_write ⟨NewKVStore, ["f1", "f2"], 3, 1⟩
     ⟨"n1", NewKVStore, ["p1", "p2"], 3, 1⟩ "k" "v" (fun _ => false)
     (by decide) (by decide) (by decide)⟩

/-! ### Read-loop lemmas -/

theorem collectResponses_fst (r : Nat) : ∀ (responses : List ReadResult)
    (acc : List KVPair) (k : Nat),
    (collectResponses r responses acc k).1 =
      acc ++ (((responses.filter (fun res => res.found)).take (r - k)).map
        (fun res => res.pair)) := by
  intro responses
  induction responses with
  | nil => intro acc k; simp [collectResponses]
  | cons res rest ih =>
      intro acc k
      by_cases hk : k < r
      · by_cases hf : res.found = true
        · have hsub : r - k = (r - (k + 1)) + 1 := by omega
          simp [collectResponses, hk, hf, ih, List.filter_cons, hsub,
            List.take_succ_cons]
        · simp [collectResponses, hk, hf, ih, List.filter_cons]
      · have hsub : r - k = 0 := by omega
        simp [collectResponses, hk, hsub]

theorem collectResponses_snd (r : Nat) : ∀ (responses : List ReadResult)
    (acc : List KVPair) (k : Nat),
    (collectResponses r responses acc k).2 =
      k + min (r - k) ((responses.filter (fun res => res.found)).length) := by
  intro responses
  induction responses with
  | nil => intro acc k; simp [collectResponses]
  | cons res rest ih =>
      intro acc k
      by_cases hk : k < r
      · by_cases hf : res.found = true
        · simp [collectResponses, hk, hf, ih, List.filter_cons]
          omega
        · simp [collectResponses, hk, hf, ih, List.filter_cons]
      · simp [collectResponses, hk]
        omega

theorem readFollowersLoop_fst (r : Nat) (peerRead : String → Option KVPair) :
    ∀ (urls : List String) (results : List KVPair) (k : Nat),
    (readFollowersLoop r peerRead urls results k).1 =
      results ++ ((urls.filterMap peerRead).take (r - k)) := by
  intro urls
  induction urls with
  | nil => intro results k; simp [readFollowersLoop]
  | cons u rest ih =>
      intro results k
      by_cases hk : r ≤ k
      · have hsub : r - k = 0 := by omega
        simp [readFollowersLoop, hk, hsub]
      · cases hpu : peerRead u with
        | some pair =>
            have hsub : r - k = (r - (k + 1)) + 1 := by omega
            simp [readFollowersLoop, hk, hpu, ih, List.filterMap_cons, hsub,
              List.take_succ_cons]
        | none =>
            simp [readFollowersLoop, hk, hpu, ih, List.filterMap_cons]

theorem readFollowersLoop_snd (r : Nat) (peerRead : String → Option KVPair) :
    ∀ (urls : List String) (results : List KVPair) (k : Nat),
    (readFollowersLoop r peerRead urls results k).2 =
      k + min (r - k) (List.countP (fun u => (peerRead u).isSome) urls) := by
  intro urls
  induction urls with
  | nil => intro results k; simp [readFollowersLoop]
  | cons u rest ih =>
      intro results k
      by_cases hk : r ≤ k
      · have hsub : r - k = 0 := by omega
        simp [readFollowersLoop, hk, hsub]
      · cases hpu : peerRead u with
        | some pair =>
            simp [readFollowersLoop, hk, hpu, ih, List.countP_cons]
            omega
        | none =>
            simp [readFollowersLoop, hk, hpu, ih, List.countP_cons]

theorem selectLatest_spec (pairs : List KVPair) : ∀ latest : KVPair,
    (∀ x ∈ latest :: pairs, x.version ≤ (selectLatest latest pairs).version) ∧
    ∃ l1 l2, latest :: pairs = l1 ++ (selectLatest latest pairs) :: l2 ∧
      ∀ x ∈ l1, x.version < (selectLatest latest pairs).version := by
  induction pairs with
  | nil =>
      intro latest
      refine ⟨?_, [], [], by simp [selectLatest], by simp⟩
      intro x hx
      simp at hx
      simp [selectLatest, hx]
  | cons p rest ih =>
      intro latest
      by_cases h : latest.version < p.version
      · have hsel : selectLatest latest (p :: rest) = selectLatest p rest := by
          simp [selectLatest, h]
        obtain ⟨ihge, l1, l2, hsplit, hlt⟩ := ih p
        have hple : p.version ≤ (selectLatest p rest).version :=
          ihge p (by simp)
        rw [hsel]
        constructor
        · intro x hx
          rcases List.mem_cons.mp hx with hx | hx
          · subst hx; omega
          · exact ihge x hx
        · refine ⟨latest :: l1, l2, ?_, ?_⟩
          · simp [hsplit]
          · intro x hx
            rcases List.mem_cons.mp hx with hx | hx
            · subst hx; omega
            · exact hlt x hx
      · have hsel : selectLatest latest (p :: rest) = selectLatest latest rest := by
          simp [selectLatest, h]
        obtain ⟨ihge, l1, l2, hsplit, hlt⟩ := ih latest
        have hlle : latest.version ≤ (selectLatest latest rest).version :=
          ihge latest (by simp)
        rw [hsel]
        constructor
        · intro x hx
          rcases List.mem_cons.mp hx with hx | hx
          · subst hx; exact hlle
          rcases List.mem_cons.mp hx with hx | hx
          · subst hx; omega
          · exact ihge x (by simp [hx])
        · cases l1 with
          | nil =>
              simp at hsplit
              refine ⟨[], p :: rest, ?_, by simp⟩
              rw [List.nil_append, ← hsplit.1]
          | cons y l1t =>
              simp at hsplit
              obtain ⟨hy, hrest⟩ := hsplit
              rw [← hy] at hlt
              refine ⟨latest :: p :: l1t, l2, ?_, ?_⟩
              · rw [List.cons_append, List.cons_append, ← hrest]
              · intro x hx
                have hlm := hlt latest (by simp)
                rcases List.mem_cons.mp hx with hx | hx
                · rw [hx]; exact hlm
                rcases List.mem_cons.mp hx with hx | hx
                · rw [hx]; omega
                · exact hlt x (by simp [hx])

theorem selectLatest_cons_self (p : KVPair) (rest : List KVPair) :
    selectLatest p (p :: rest) = selectLatest p rest := by
  simp [selectLatest]

/-! ### Claim C5 -/

/-- C5: a quorum read that succeeds with a non-empty collection returns
the record with the greatest version among the collected responses, and
when versions tie the record collected first wins: the returned record
occurs in the collection with every earlier element strictly below its
version and every element at most its version.  Proved for both read
paths, which resolve the same collection identically. -/
theorem quorum_read_returns_first_maximal_version (lnl : LeaderlessNode)
    (responses : List ReadResult) (ln : LeaderNode) (key : String)
    (peerRead : String → Option KVPair) (p : KVPair) (rest : List KVPair)
    (hrl : 1 < lnl.r)
    (hcol : (collectResponses lnl.r responses [] 0).1 = p :: rest)
    (hmet : lnl.r ≤ (collectResponses lnl.r responses [] 0).2)
    (hrf : 1 < ln.r)
    (hlf : (readFollowersLoop ln.r peerRead ln.followerURLs
      (leaderLocalSeed ln key) 1).1 = p :: rest)
    (hmet2 : ln.r ≤ (readFollowersLoop ln.r peerRead ln.followerURLs
      (leaderLocalSeed ln key) 1).2) :
    ∃ m, lnl.Read key responses = ⟨200, m.value, m.version, false⟩ ∧
      ln.Read key peerRead = ⟨200, m.value, m.version, false⟩ ∧
      m ∈ p :: rest ∧ (∀ x ∈ p :: rest, x.version ≤ m.version) ∧
      ∃ l1 l2, p :: rest = l1 ++ m :: l2 ∧
        ∀ x ∈ l1, x.version < m.version := by
  obtain ⟨hge, l1, l2, hsplit, hlt⟩ := selectLatest_spec rest p
  refine ⟨selectLatest p rest, ?_, ?_, ?_, hge, l1, l2, hsplit, hlt⟩
  · have hne : ¬lnl.r = 1 := by omega
    have hnlt : ¬(collectResponses lnl.r responses [] 0).2 < lnl.r := by omega
    simp [LeaderlessNode.Read, hne, llReadQuorum, hnlt, hcol]
  · have hne : ¬ln.r = 1 := by omega
    have hnlt : ¬(readFollowersLoop ln.r peerRead ln.followerURLs
        (leaderLocalSeed ln key) 1).2 < ln.r := by omega
    simp [LeaderNode.Read, hne, hnlt, hlf, selectLatest_cons_self]
  · rw [hsplit]
    simp

/-- C5 witness: collections holding versions 4 then 7 resolve to the
version-7 record on both read paths. -/
theorem quorum_read_returns_first_maximal_version_witness :
    (1 : Nat) < 2 ∧
    (∃ m, LeaderlessNode.Read ⟨"n1", NewKVStore, ["p1"], 1, 2⟩ "k"
        [⟨⟨"a", 4⟩, true⟩, ⟨⟨"b", 7⟩, true⟩] =
          ⟨200, m.value, m.version, false⟩ ∧
      LeaderNode.Read ⟨(NewKVStore.Set "k" "a" (some 4)).1, ["f1"], 1, 2⟩
        "k" (fun _ => some ⟨"b", 7⟩) = ⟨200, m.value, m.version, false⟩ ∧
      m ∈ [(⟨"a", 4⟩ : KVPair), ⟨"b", 7⟩] ∧
      (∀ x ∈ [(⟨"a", 4⟩ : KVPair), ⟨"b", 7⟩], x.version ≤ m.version) ∧
      ∃ l1 l2, [(⟨"a", 4⟩ : KVPair), ⟨"b", 7⟩] = l1 ++ m :: l2 ∧
        ∀ x ∈ l1, x.version < m.version) :=
  ⟨by decide,
   quorum_read_returns_first_maximal_version
     ⟨"n1", NewKVStore, ["p1"], 1, 2⟩
     [⟨⟨"a", 4⟩, true⟩, ⟨⟨"b", 7⟩, true⟩]
     ⟨(NewKVStore.Set "k" "a" (some 4)).1, ["f1"], 1, 2⟩ "k"
     (fun _ => some ⟨"b", 7⟩) ⟨"a", 4⟩ [⟨"b", 7⟩]
     (by decide) (by decide) (by decide) (by decide) (by decide) (by decide)⟩

/-! ### Claim C6 -/

/-- C6 counterexample: three nodes respond (one found, two not found) with
R = 2, so at least R nodes responded and the found subset is non-empty,
yet the leaderless quorum read fails with 500 instead of succeeding:
not-found responses do not count toward R. -/
theorem notfound_responses_do_not_count :
    (LeaderlessNode.Read ⟨"n1", NewKVStore, ["p1", "p2"], 1, 2⟩ "k"
      [⟨⟨"a", 1⟩, true⟩, ⟨⟨"", 0⟩, false⟩, ⟨⟨"", 0⟩, false⟩]).status = 500 ∧
    (2 : Nat) ≤ ([⟨⟨"a", 1⟩, true⟩, ⟨⟨"", 0⟩, false⟩, ⟨⟨"", 0⟩, false⟩] :
      List ReadResult).length := by decide

/-- C6 (amended): the read quorum is counted over found records, not over
total responses: the leaderless quorum read succeeds exactly when at least
R of the collected responses carry a found record, and the leader-follower
quorum read succeeds exactly when the leader (counted unconditionally,
with or without the key) plus the followers that returned a record reach
R. -/
theorem read_quorum_counts_found_responses (lnl : LeaderlessNode)
    (responses : List ReadResult) (ln : LeaderNode) (key : String)
    (peerRead : String → Option KVPair)
    (hrl : 1 < lnl.r) (hrf : 1 < ln.r) :
    ((lnl.Read key responses).status = 200 ↔
      lnl.r ≤ (responses.filter (fun res => res.found)).length) ∧
    ((ln.Read key peerRead).status = 200 ↔
      ln.r ≤ 1 + List.countP (fun u => (peerRead u).isSome)
        ln.followerURLs) := by
  constructor
  · have hne : ¬lnl.r = 1 := by omega
    have hsnd := collectResponses_snd lnl.r responses [] 0
    have hfst := collectResponses_fst lnl.r responses [] 0
    rw [Nat.sub_zero] at hsnd hfst
    by_cases hq : lnl.r ≤ (responses.filter (fun res => res.found)).length
    · have hnlt : ¬(collectResponses lnl.r responses [] 0).2 < lnl.r := by
        omega
      have hlen : (collectResponses lnl.r responses [] 0).1.length = lnl.r := by
        rw [hfst]
        simp [List.length_take]
        omega
      have hnn : (collectResponses lnl.r responses [] 0).1 ≠ [] := by
        intro hcontra
        rw [hcontra] at hlen
        simp at hlen
        omega
      obtain ⟨p, rest, hcons⟩ := List.exists_cons_of_ne_nil hnn
      simp [LeaderlessNode.Read, hne, llReadQuorum, hnlt, hcons, hq]
    · have hlt2 : (collectResponses lnl.r responses [] 0).2 < lnl.r := by
        omega
      simp [LeaderlessNode.Read, hne, llReadQuorum, hlt2, hq]
  · have hne : ¬ln.r = 1 := by omega
    have hsnd := readFollowersLoop_snd ln.r peerRead ln.followerURLs
      (leaderLocalSeed ln key) 1
    have hfst := readFollowersLoop_fst ln.r peerRead ln.followerURLs
      (leaderLocalSeed ln key) 1
    by_cases hq : ln.r ≤ 1 + List.countP (fun u => (peerRead u).isSome)
        ln.followerURLs
    · have hnlt : ¬(readFollowersLoop ln.r peerRead ln.followerURLs
          (leaderLocalSeed ln key) 1).2 < ln.r := by omega
      have hcnt : 0 < List.countP (fun u => (peerRead u).isSome)
          ln.followerURLs := by omega
      obtain ⟨u, hu, hus⟩ := List.countP_pos_iff.mp hcnt
      obtain ⟨pair, hpair⟩ := Option.isSome_iff_exists.mp hus
      have hmem : pair ∈ ln.followerURLs.filterMap peerRead :=
        List.mem_filterMap.mpr ⟨u, hu, hpair⟩
      have hfmlen : 0 < (ln.followerURLs.filterMap peerRead).length :=
        List.length_pos.mpr (List.ne_nil_of_mem hmem)
      have hlen : 0 < (readFollowersLoop ln.r peerRead ln.followerURLs
          (leaderLocalSeed ln key) 1).1.length := by
        rw [hfst]
        simp [List.length_take]
        omega
      have hnn : (readFollowersLoop ln.r peerRead ln.followerURLs
          (leaderLocalSeed ln key) 1).1 ≠ [] := by
        intro hcontra
        rw [hcontra] at hlen
        simp at hlen
      obtain ⟨p, rest, hcons⟩ := List.exists_cons_of_ne_nil hnn
      simp [LeaderNode.Read, hne, hnlt, hcons, hq]
    · have hlt2 : (readFollowersLoop ln.r peerRead ln.followerURLs
          (leaderLocalSeed ln key) 1).2 < ln.r := by omega
      simp [LeaderNode.Read, hne, hlt2, hq]

/-- C6 witness: instantiation with two found responses against R = 2 on
the leaderless path and one follower record plus the leader credit against
R = 2 on the leader-follower path. -/
theorem read_quorum_counts_found_responses_witness :
    (1 : Nat) < 2 ∧
    (((LeaderlessNode.Read ⟨"n1", NewKVStore, ["p1"], 1, 2⟩ "k"
        [⟨⟨"a", 1⟩, true⟩, ⟨⟨"b", 2⟩, true⟩]).status = 200 ↔
      (2 : Nat) ≤ (([⟨⟨"a", 1⟩, true⟩, ⟨⟨"b", 2⟩, true⟩] :
        List ReadResult).filter (fun res => res.found)).length) ∧
    ((LeaderNode.Read ⟨NewKVStore, ["f1", "f2"], 1, 2⟩ "k"
        (fun _ => some ⟨"c", 3⟩)).status = 200 ↔
      (2 : Nat) ≤ 1 + List.countP
        (fun u => (((fun _ => some ⟨"c", 3⟩) : String → Option KVPair)
          u).isSome) ["f1", "f2"])) :=
  ⟨by decide,
   read_quorum_counts_found_responses ⟨"n1", NewKVStore, ["p1"], 1, 2⟩
     [⟨⟨"a", 1⟩, true⟩, ⟨⟨"b", 2⟩, true⟩] ⟨NewKVStore, ["f1", "f2"], 1, 2⟩
     "k" (fun _ => some ⟨"c", 3⟩) (by decide) (by decide)⟩

/-! ### Claim C7 -/

/-- C7 counterexample: a key written nowhere, read with R = 2 over two
responding nodes that both lack it: the read fails with the quorum error
500, not NotFound 404 as the claim requires for R greater than 1. -/
theorem unwritten_key_quorum_read_fails_500 :
    LeaderlessNode.Read ⟨"n1", NewKVStore, ["p1"], 1, 2⟩ "unknown-key"
      [⟨⟨"", 0⟩, false⟩, ⟨⟨"", 0⟩, false⟩] = ⟨500, "", 0, true⟩ := by decide

/-- C7 (amended): for a key never written on any node, the R = 1 read
returns NotFound 404 from the local store on both topologies, but every
R greater than 1 quorum read fails with the quorum error 500 instead,
because nodes lacking the key do not count toward R (in leader-follower
only the unconditional leader credit of 1 is collected, which is below
R). -/
theorem unwritten_key_read_outcomes (lnl1 lnl2 : LeaderlessNode)
    (ln1 ln2 : LeaderNode) (key : String) (responses : List ReadResult)
    (peerRead : String → Option KVPair)
    (h1 : lnl1.r = 1) (hg1 : lnl1.kvStore.Get key = none)
    (h2 : 1 < lnl2.r)
    (hall : ∀ res ∈ responses, res.found = false)
    (h3 : ln1.r = 1) (hg3 : ln1.kvStore.Get key = none)
    (h4 : 1 < ln2.r) (hg4 : ln2.kvStore.Get key = none)
    (hpr : ∀ u ∈ ln2.followerURLs, peerRead u = none) :
    lnl1.Read key responses = ⟨404, "", 0, true⟩ ∧
    lnl2.Read key responses = ⟨500, "", 0, true⟩ ∧
    ln1.Read key peerRead = ⟨404, "", 0, true⟩ ∧
    ln2.Read key peerRead = ⟨500, "", 0, true⟩ := by
  refine ⟨by simp [LeaderlessNode.Read, h1, hg1], ?_,
    by simp [LeaderNode.Read, h3, hg3], ?_⟩
  · have hne : ¬lnl2.r = 1 := by omega
    have hfil : responses.filter (fun res => res.found) = [] := by
      rw [List.filter_eq_nil_iff]
      intro res hres
      simp [hall res hres]
    have hsnd := collectResponses_snd lnl2.r responses [] 0
    rw [Nat.sub_zero, hfil] at hsnd
    have hlt2 : (collectResponses lnl2.r responses [] 0).2 < lnl2.r := by
      simp at hsnd
      omega
    simp [LeaderlessNode.Read, hne, llReadQuorum, hlt2]
  · have hne : ¬ln2.r = 1 := by omega
    have hcnt : List.countP (fun u => (peerRead u).isSome)
        ln2.followerURLs = 0 := by
      rw [List.countP_eq_zero]
      intro u hu
      simp [hpr u hu]
    have hsnd := readFollowersLoop_snd ln2.r peerRead ln2.followerURLs
      (leaderLocalSeed ln2 key) 1
    rw [hcnt] at hsnd
    have hlt2 : (readFollowersLoop ln2.r peerRead ln2.followerURLs
        (leaderLocalSeed ln2 key) 1).2 < ln2.r := by
      simp at hsnd
      omega
    simp [LeaderNode.Read, hne, hlt2]

/-- C7 witness: fresh nodes, a key written nowhere, R = 1 and R = 2
configurations of both topologies. -/
theorem unwritten_key_read_outcomes_witness :
    (1 : Nat) < 2 ∧
    (LeaderlessNode.Read ⟨"n1", NewKVStore, ["p1"], 1, 1⟩ "unknown-key"
        [⟨⟨"", 0⟩, false⟩, ⟨⟨"", 0⟩, false⟩] = ⟨404, "", 0, true⟩ ∧
     LeaderlessNode.Read ⟨"n2", NewKVStore, ["p1"], 1, 2⟩ "unknown-key"
        [⟨⟨"", 0⟩, false⟩, ⟨⟨"", 0⟩, false⟩] = ⟨500, "", 0, true⟩ ∧
     LeaderNode.Read ⟨NewKVStore, ["f1"], 1, 1⟩ "unknown-key"
        (fun _ => none) = ⟨404, "", 0, true⟩ ∧
     LeaderNode.Read ⟨NewKVStore, ["f1"], 1, 2⟩ "unknown-key"
        (fun _ => none) = ⟨500, "", 0, true⟩) :=
  ⟨by decide,
   unwritten_key_read_outcomes ⟨"n1", NewKVStore, ["p1"], 1, 1⟩
     ⟨"n2", NewKVStore, ["p1"], 1, 2⟩ ⟨NewKVStore, ["f1"], 1, 1⟩
     ⟨NewKVStore, ["f1"], 1, 2⟩ "unknown-key"
     [⟨⟨"", 0⟩, false⟩, ⟨⟨"", 0⟩, false⟩] (fun _ => none)
     rfl (by decide) (by decide) (by decide) rfl (by decide) (by decide)
     (by decide) (by decide)⟩

/-! ### Quorum-intersection lemmas for claim C1 -/

theorem quorum_found_intersection (v : Int) (W r : Nat)
    (order : List ReadResult)
    (hWR : order.length < W + r)
    (hW : W ≤ List.countP
      (fun res => res.found && decide (v ≤ res.pair.version)) order)
    (hfound : r ≤ (order.filter (fun res => res.found)).length) :
    ∃ res ∈ (order.filter (fun res => res.found)).take r,
      v ≤ res.pair.version := by
  have hcf : List.countP
      (fun res => res.found && decide (v ≤ res.pair.version))
      (order.filter (fun res => res.found)) = List.countP
      (fun res => res.found && decide (v ≤ res.pair.version)) order := by
    rw [List.countP_filter]
    apply List.countP_congr
    intro res _
    cases hf : res.found <;> simp [hf]
  have hsplit := List.take_append_drop r (order.filter (fun res => res.found))
  have happ : List.countP
      (fun res => res.found && decide (v ≤ res.pair.version))
      (order.filter (fun res => res.found)) = List.countP
        (fun res => res.found && decide (v ≤ res.pair.version))
        ((order.filter (fun res => res.found)).take r) + List.countP
        (fun res => res.found && decide (v ≤ res.pair.version))
        ((order.filter (fun res => res.found)).drop r) := by
    conv_lhs => rw [← hsplit]
    rw [List.countP_append]
  by_cases hz : List.countP
      (fun res => res.found && decide (v ≤ res.pair.version))
      ((order.filter (fun res => res.found)).take r) = 0
  · exfalso
    have hdle : List.countP
        (fun res => res.found && decide (v ≤ res.pair.version))
        ((order.filter (fun res => res.found)).drop r) ≤
        ((order.filter (fun res => res.found)).drop r).length :=
      List.countP_le_length _
    have hdrop : ((order.filter (fun res => res.found)).drop r).length =
        (order.filter (fun res => res.found)).length - r :=
      List.length_drop r _
    have hfle : (order.filter (fun res => res.found)).length ≤
        order.length := List.length_filter_le _ order
    omega
  · obtain ⟨res, hmem, hres⟩ :=
      List.countP_pos_iff.mp (Nat.pos_of_ne_zero hz)
    simp only [Bool.and_eq_true] at hres
    exact ⟨res, hmem, of_decide_eq_true hres.2⟩

theorem countP_toReadResult (v : Int) (views : List (Option KVPair)) :
    List.countP (fun res => res.found && decide (v ≤ res.pair.version))
      (views.map toReadResult) = List.countP (hasVersionGe v) views := by
  rw [List.countP_map]
  apply List.countP_congr
  intro ov _
  cases ov <;> simp [toReadResult, hasVersionGe, Function.comp]

theorem postWriteViews_count (coordStore : KVStore)
    (peers : List (String × KVStore)) (net : String → Bool)
    (key value : String) :
    1 + List.countP (fun pk => net pk.1) peers ≤
      List.countP (hasVersionGe (coordStore.versionCounter + 1))
        (postWriteViews coordStore peers net key value) := by
  have hhead : hasVersionGe (coordStore.versionCounter + 1)
      ((coordStore.Set key value none).1.Get key) = true := by
    rw [KVStore.Get_Set_self, KVStore.Set_version_none]
    simp [hasVersionGe]
  have htail : List.countP (fun pk => net pk.1) peers ≤
      List.countP (hasVersionGe (coordStore.versionCounter + 1))
      (peers.map (fun pk =>
        if net pk.1 then
          ((pk.2.Set key value (some (coordStore.versionCounter + 1))).1.Get
            key)
        else pk.2.Get key)) := by
    rw [List.countP_map]
    apply List.countP_mono_left
    intro pk _ hnet
    have hg := KVStore.Get_Set_self pk.2 key value
      (some (coordStore.versionCounter + 1))
    rw [KVStore.Set_version_some] at hg
    simp [Function.comp, hnet, hg, hasVersionGe]
  rw [List.countP_map] at htail
  simp [postWriteViews, List.countP_cons, hhead]
  omega

/-! ### Claim C1 -/

/-- C1: quorum intersection prevents stale reads.  In a leaderless system
of N = peers + 1 nodes with W + R greater than N, if a coordinator write
acknowledges success (status 201) with version v, then any quorum read
(R greater than 1) over the post-write node views of that key — collected
in any arrival order, absent later writes to the key — that succeeds
(status 200) returns a version at least v. -/
theorem no_stale_read_after_acked_write
    (coordStore : KVStore) (peers : List (String × KVStore))
    (net : String → Bool) (key value nodeID : String) (w r : Nat)
    (lnReader : LeaderlessNode) (order : List ReadResult)
    (hWR : peers.length + 1 < w + r)
    (hr : 1 < r) (hrr : lnReader.r = r)
    (hack : ((LeaderlessNode.mk nodeID coordStore (peers.map Prod.fst) w
        r).Write key value net).2.status = 201)
    (hperm : List.Perm order
      ((postWriteViews coordStore peers net key value).map toReadResult))
    (hread : (lnReader.Read key order).status = 200) :
    ((LeaderlessNode.mk nodeID coordStore (peers.map Prod.fst) w r).Write
        key value net).2.version ≤ (lnReader.Read key order).version := by
  by_cases hk : key = ""
  · rw [hk] at hack
    simp [LeaderlessNode.Write] at hack
  have hmet : w ≤ replicateToAllPeers net (peers.map Prod.fst) 1 := by
    by_contra hniet
    simp [LeaderlessNode.Write, hk, hniet] at hack
  have hv : ((LeaderlessNode.mk nodeID coordStore (peers.map Prod.fst) w
      r).Write key value net).2.version = coordStore.versionCounter + 1 := by
    simp [LeaderlessNode.Write, hk, hmet, KVStore.Set_version_none]
  have hb : w ≤ 1 + List.countP (fun pk => net pk.1) peers := by
    rw [replicateToAllPeers_count, List.countP_map] at hmet
    exact hmet
  have hWo : w ≤ List.countP
      (fun res => res.found &&
        decide (coordStore.versionCounter + 1 ≤ res.pair.version)) order := by
    rw [hperm.countP_eq, countP_toReadResult]
    exact le_trans hb (postWriteViews_count coordStore peers net key value)
  have hlen : order.length = peers.length + 1 := by
    rw [hperm.length_eq]
    simp [postWriteViews]
  have hne : ¬lnReader.r = 1 := by omega
  have hsnd := collectResponses_snd lnReader.r order [] 0
  have hfst := collectResponses_fst lnReader.r order [] 0
  rw [Nat.sub_zero] at hsnd hfst
  have hlenF : lnReader.r ≤
      (order.filter (fun res => res.found)).length := by
    by_contra hc
    have hlt2 : (collectResponses lnReader.r order [] 0).2 < lnReader.r := by
      omega
    simp [LeaderlessNode.Read, hne, llReadQuorum, hlt2] at hread
  have hlen1 : (collectResponses lnReader.r order [] 0).1.length =
      lnReader.r := by
    rw [hfst]
    simp [List.length_take]
    omega
  have hnn : (collectResponses lnReader.r order [] 0).1 ≠ [] := by
    intro hcontra
    rw [hcontra] at hlen1
    simp at hlen1
    omega
  obtain ⟨p, rest, hcons⟩ := List.exists_cons_of_ne_nil hnn
  have hnlt : ¬(collectResponses lnReader.r order [] 0).2 < lnReader.r := by
    omega
  have hout : lnReader.Read key order =
      ⟨200, (selectLatest p rest).value, (selectLatest p rest).version,
        false⟩ := by
    simp [LeaderlessNode.Read, hne, llReadQuorum, hnlt, hcons]
  obtain ⟨res, hresmem, hresge⟩ := quorum_found_intersection
    (coordStore.versionCounter + 1) w lnReader.r order (by omega) hWo hlenF
  have hpmem : res.pair ∈ (collectResponses lnReader.r order [] 0).1 := by
    rw [hfst]
    simp only [List.nil_append]
    exact List.mem_map.mpr ⟨res, hresmem, rfl⟩
  rw [hcons] at hpmem
  have hge := (selectLatest_spec rest p).1 res.pair hpmem
  rw [hv, hout]
  exact le_trans hresge hge

/-- C1 witness: N = 3 nodes, W = 2, R = 2, all peers reachable, the read
collecting the post-write views in their listed order. -/
theorem no_stale_read_after_acked_write_witness :
    ([("p1", NewKVStore), ("p2", NewKVStore)] :
        List (String × KVStore)).length + 1 < 2 + 2 ∧
    (1 : Nat) < 2 ∧
    ((LeaderlessNode.mk "n1" NewKVStore
        ([("p1", NewKVStore), ("p2", NewKVStore)].map Prod.fst) 2 2).Write
        "k" "v" (fun _ => true)).2.status = 201 ∧
    (LeaderlessNode.Read ⟨"n9", NewKVStore, [], 1, 2⟩ "k"
      ((postWriteViews NewKVStore [("p1", NewKVStore), ("p2", NewKVStore)]
        (fun _ => true) "k" "v").map toReadResult)).status = 200 ∧
    ((LeaderlessNode.mk "n1" NewKVStore
        ([("p1", NewKVStore), ("p2", NewKVStore)].map Prod.fst) 2 2).Write
        "k" "v" (fun _ => true)).2.version ≤
      (LeaderlessNode.Read ⟨"n9", NewKVStore, [], 1, 2⟩ "k"
        ((postWriteViews NewKVStore [("p1", NewKVStore), ("p2", NewKVStore)]
          (fun _ => true) "k" "v").map toReadResult)).version :=
  ⟨by decide, by decide, by decide, by decide,
   no_stale_read_after_acked_write NewKVStore
     [("p1", NewKVStore), ("p2", NewKVStore)] (fun _ => true) "k" "v" "n1"
     2 2 ⟨"n9", NewKVStore, [], 1, 2⟩
     ((postWriteViews NewKVStore [("p1", NewKVStore), ("p2", NewKVStore)]
       (fun _ => true) "k" "v").map toReadResult)
     (by decide) (by decide) rfl (by decide) (List.Perm.refl _) (by decide)⟩

